import Mathlib

/-!
Verification of the Kopia maintenance scheduling core of the volsync
repository: repository-identity hashing, wildcard matching, maintenance
policy validation, priority arbitration, first-wins schedule conflict
resolution, and CronJob name generation.

Go strings are embedded as `List Char` (UTF-8 byte order coincides with
code-point order, so Go's bytewise string comparison is code-point
lexicographic). Machine integers are embedded as `Nat` with explicit
reduction modulo 2^32 where Go's uint32 arithmetic wraps.
-/

/-- Go strings, embedded as lists of characters. -/
abbrev Str := List Char

/-- Embeds Go `strings.HasPrefix(s, pre)`. -/
def goStartsWith : Str → Str → Bool
  | _, [] => true
  | [], _ :: _ => false
  | c :: cs, p :: ps => c == p && goStartsWith cs ps

/-- Embeds Go `strings.HasSuffix(s, suf)`. -/
def goEndsWith (s suf : Str) : Bool :=
  goStartsWith s.reverse suf.reverse

/-- Embeds Go `strings.Contains(s, sub)` (substring containment: `sub`
occurs at some position of `s`). -/
def goContains : Str → Str → Bool
  | [], sub => goStartsWith [] sub
  | c :: rest, sub => goStartsWith (c :: rest) sub || goContains rest sub

/-- Embeds Go `strings.Trim(s, cutset)`: strips every leading and trailing
character that occurs in the cutset. -/
def goTrim (s cutset : Str) : Str :=
  ((s.dropWhile (fun c => cutset.contains c)).reverse.dropWhile
    (fun c => cutset.contains c)).reverse

/-- Helper for `goReplaceAll`; `fuel` bounds the number of characters still
to scan (each step consumes at least one, so `s.length` fuel is enough). -/
def goReplaceAllAux : Nat → Str → Str → Str → Str
  | 0, s, _, _ => s
  | fuel + 1, s, old, new =>
    match s with
    | [] => []
    | c :: rest =>
      if old ≠ [] ∧ goStartsWith (c :: rest) old then
        new ++ goReplaceAllAux fuel ((c :: rest).drop old.length) old new
      else
        c :: goReplaceAllAux fuel rest old new

/-- Embeds Go `strings.ReplaceAll(s, old, new)` for a non-empty `old`
(the only way the sources call it). -/
def goReplaceAll (s old new : Str) : Str :=
  goReplaceAllAux s.length s old new

/-- Go bytewise string comparison `s < t` (for ASCII object names this is
exactly UTF-8 byte order). -/
def strLt : Str → Str → Bool
  | _, [] => false
  | [], _ :: _ => true
  | a :: as, b :: bs => a.toNat < b.toNat || (a == b && strLt as bs)

/-- UTF-8 encoding of one character, as Go lays strings out in memory. -/
def utf8Bytes (c : Char) : List Nat :=
  let n := c.toNat
  if n < 128 then [n]
  else if n < 2048 then [192 + n / 64, 128 + n % 64]
  else if n < 65536 then [224 + n / 4096, 128 + (n / 64) % 64, 128 + n % 64]
  else [240 + n / 262144, 128 + (n / 4096) % 64, 128 + (n / 64) % 64, 128 + n % 64]

/-- UTF-8 byte sequence of a Go string. -/
def utf8Encode (s : Str) : List Nat :=
  (s.map utf8Bytes).flatten

/-! ## SHA-256 (crypto/sha256), on byte lists -/

/-- Reduction modulo 2^32, Go's uint32 wrap-around. -/
def w32 (n : Nat) : Nat := n % 4294967296

/-- Right rotation of a 32-bit word. -/
def rotr (n x : Nat) : Nat := w32 ((x >>> n) ||| (x <<< (32 - n)))

/-- SHA-256 Ch function. -/
def shaCh (x y z : Nat) : Nat := (x &&& y) ^^^ ((x ^^^ 4294967295) &&& z)

/-- SHA-256 Maj function. -/
def shaMaj (x y z : Nat) : Nat := (x &&& y) ^^^ (x &&& z) ^^^ (y &&& z)

/-- SHA-256 Sigma-0 (uppercase). -/
def shaS0 (x : Nat) : Nat := rotr 2 x ^^^ rotr 13 x ^^^ rotr 22 x

/-- SHA-256 Sigma-1 (uppercase). -/
def shaS1 (x : Nat) : Nat := rotr 6 x ^^^ rotr 11 x ^^^ rotr 25 x

/-- SHA-256 sigma-0 (lowercase, message schedule). -/
def shas0 (x : Nat) : Nat := rotr 7 x ^^^ rotr 18 x ^^^ (x >>> 3)

/-- SHA-256 sigma-1 (lowercase, message schedule). -/
def shas1 (x : Nat) : Nat := rotr 17 x ^^^ rotr 19 x ^^^ (x >>> 10)

/-- The 64 SHA-256 round constants (FIPS 180-4, written in decimal). -/
def shaK : List Nat :=
  [1116352408, 1899447441, 3049323471, 3921009573, 961987163,
   1508970993, 2453635748, 2870763221, 3624381080, 310598401,
   607225278, 1426881987, 1925078388, 2162078206, 2614888103,
   3248222580, 3835390401, 4022224774, 264347078, 604807628,
   770255983, 1249150122, 1555081692, 1996064986, 2554220882,
   2821834349, 2952996808, 3210313671, 3336571891, 3584528711,
   113926993, 338241895, 666307205, 773529912, 1294757372,
   1396182291, 1695183700, 1986661051, 2177026350, 2456956037,
   2730485921, 2820302411, 3259730800, 3345764771, 3516065817,
   3600352804, 4094571909, 275423344, 430227734, 506948616,
   659060556, 883997877, 958139571, 1322822218, 1537002063,
   1747873779, 1955562222, 2024104815, 2227730452, 2361852424,
   2428436474, 2756734187, 3204031479, 3329325298]

/-- The SHA-256 initial hash value (FIPS 180-4, written in decimal). -/
def shaH0 : List Nat :=
  [1779033703, 3144134277, 1013904242, 2773480762,
   1359893119, 2600822924, 528734635, 1541459225]

/-- Big-endian 8-byte encoding of a natural number (the length field of
SHA-256 padding). -/
def be64 (n : Nat) : List Nat :=
  [(n >>> 56) &&& 255, (n >>> 48) &&& 255, (n >>> 40) &&& 255,
   (n >>> 32) &&& 255, (n >>> 24) &&& 255, (n >>> 16) &&& 255,
   (n >>> 8) &&& 255, n &&& 255]

/-- Big-endian 4-byte encoding of a 32-bit word. -/
def be32 (n : Nat) : List Nat :=
  [(n >>> 24) &&& 255, (n >>> 16) &&& 255, (n >>> 8) &&& 255, n &&& 255]

/-- SHA-256 message padding: append 0x80, zeros to 56 mod 64, and the
bit length as a big-endian 64-bit integer. -/
def sha256Pad (msg : List Nat) : List Nat :=
  let z := (119 - (msg.length % 64)) % 64
  msg ++ 128 :: List.replicate z 0 ++ be64 (msg.length * 8)

/-- Big-endian 32-bit words of a byte list (of length a multiple of 4). -/
def toWords : List Nat → List Nat
  | a :: b :: c :: d :: rest => (a * 16777216 + b * 65536 + c * 256 + d) :: toWords rest
  | _ => []

/-- Extends a 16-word message block to the 64-word SHA-256 schedule
(`fuel` counts the remaining words to append, 48 from the start). -/
def shaExtend : Nat → List Nat → List Nat
  | 0, w => w
  | fuel + 1, w =>
    let t := w.length
    let wt := w32 (shas1 (w.getD (t - 2) 0) + w.getD (t - 7) 0 +
      shas0 (w.getD (t - 15) 0) + w.getD (t - 16) 0)
    shaExtend fuel (w ++ [wt])

/-- One SHA-256 round: the state is the 8-tuple (a,b,c,d,e,f,g,h) as a list. -/
def shaRound (s : List Nat) (wk : Nat × Nat) : List Nat :=
  match s with
  | [a, b, c, d, e, f, g, h] =>
    let t1 := w32 (h + shaS1 e + shaCh e f g + wk.2 + wk.1)
    let t2 := w32 (shaS0 a + shaMaj a b c)
    [w32 (t1 + t2), a, b, c, w32 (d + t1), e, f, g]
  | other => other

/-- SHA-256 compression of one 16-word block into the running hash. -/
def shaCompress (h : List Nat) (block : List Nat) : List Nat :=
  let w := shaExtend 48 block
  let fin := (w.zip shaK).foldl shaRound h
  (h.zip fin).map (fun p => w32 (p.1 + p.2))

/-- Helper for `chunks64`; `fuel` bounds the number of chunks still to cut. -/
def chunks64Aux : Nat → List Nat → List (List Nat)
  | 0, _ => []
  | fuel + 1, l =>
    match l with
    | [] => []
    | c :: rest => (c :: rest).take 64 :: chunks64Aux fuel ((c :: rest).drop 64)

/-- Splits a byte list into 64-byte chunks. -/
def chunks64 (l : List Nat) : List (List Nat) :=
  chunks64Aux l.length l

/-- SHA-256 digest (32 bytes) of a byte list; embeds Go `sha256.Sum256`. -/
def sha256 (msg : List Nat) : List Nat :=
  (((chunks64 (sha256Pad msg)).foldl (fun h blk => shaCompress h (toWords blk))
    shaH0).map be32).flatten

/-- Lowercase hexadecimal digit. -/
def hexDigit (n : Nat) : Char :=
  if n < 10 then Char.ofNat (48 + n) else Char.ofNat (87 + n)

/-- Lowercase hex encoding of a byte list; embeds Go `hex.EncodeToString`
and the `%x` format verb. -/
def hexEncode (bytes : List Nat) : Str :=
  (bytes.map (fun b => [hexDigit ((b >>> 4) &&& 15), hexDigit (b &&& 15)])).flatten

/-! ## Repository identity hash (RepositoryConfig.Hash, mover/kopia) -/

/-- Modelled from the spec: the optional custom-CA reference attached to a
repository configuration (`CustomCASpec` in the api package, which is not in
the provided sources). A pair of object names (secret or config map) plus the
key within; every field carries the JSON `omitempty` option. -/
structure CustomCASpec where
  SecretName : Str
  ConfigMapName : Str
  Key : Str
deriving DecidableEq

/-- A zero-value `CustomCASpec` (all fields empty), as produced by Go's `new`. -/
def zeroCustomCA : CustomCASpec := { SecretName := [], ConfigMapName := [], Key := [] }

/-- Embeds `RepositoryConfig` (mover/kopia maintenance manager): the unique
configuration of a Kopia repository. JSON tags from the source:
`repository`, `customCA,omitempty`, `namespace`, `schedule,omitempty`. -/
structure RepositoryConfig where
  Repository : Str
  CustomCA : Option CustomCASpec
  Namespace : Str
  Schedule : Str
deriving DecidableEq

/-- JSON escaping of one character as Go `encoding/json` performs it
(with the default HTML escaping of `<`, `>`, `&`). -/
def goJsonEscapeChar (c : Char) : Str :=
  if c == '"' then ['\\', '"']
  else if c == '\\' then ['\\', '\\']
  else if c == '<' then "\\u003c".toList
  else if c == '>' then "\\u003e".toList
  else if c == '&' then "\\u0026".toList
  else if c == Char.ofNat 10 then ['\\', 'n']
  else if c == Char.ofNat 13 then ['\\', 'r']
  else if c == Char.ofNat 9 then ['\\', 't']
  else if c.toNat < 32 then
    "\\u00".toList ++ [hexDigit ((c.toNat >>> 4) &&& 15), hexDigit (c.toNat &&& 15)]
  else [c]

/-- A JSON string literal for a Go string. -/
def goJsonString (s : Str) : Str :=
  '"' :: (s.map goJsonEscapeChar).flatten ++ ['"']

/-- Comma-separated concatenation of the serialized fields of a JSON object. -/
def joinComma : List Str → Str
  | [] => []
  | [x] => x
  | x :: y :: rest => x ++ ',' :: joinComma (y :: rest)

/-- Wraps serialized fields in braces, forming a JSON object. -/
def jsonObject (fields : List Str) : Str :=
  Char.ofNat 123 :: joinComma fields ++ [Char.ofNat 125]

/-- One `"name":value` member of a JSON object. -/
def jsonField (name : Str) (valueJson : Str) : Str :=
  goJsonString name ++ ':' :: valueJson

/-- Go `json.Marshal` of a `CustomCASpec` value: every field is a string with
`omitempty`, serialized in declaration order. -/
def jsonMarshalCustomCA (ca : CustomCASpec) : Str :=
  jsonObject
    ((if ca.SecretName = [] then [] else [jsonField "secretName".toList (goJsonString ca.SecretName)]) ++
     (if ca.ConfigMapName = [] then [] else [jsonField "configMapName".toList (goJsonString ca.ConfigMapName)]) ++
     (if ca.Key = [] then [] else [jsonField "key".toList (goJsonString ca.Key)]))

/-- Go `json.Marshal` of a `RepositoryConfig` value, following the struct
tags: `repository` and `namespace` are always present, `customCA` is omitted
only when the pointer is nil, `schedule` is omitted when empty. -/
def jsonMarshalRepositoryConfig (rc : RepositoryConfig) : Str :=
  jsonObject
    ([jsonField "repository".toList (goJsonString rc.Repository)] ++
     (match rc.CustomCA with
      | none => []
      | some ca => [jsonField "customCA".toList (jsonMarshalCustomCA ca)]) ++
     [jsonField "namespace".toList (goJsonString rc.Namespace)] ++
     (if rc.Schedule = [] then [] else [jsonField "schedule".toList (goJsonString rc.Schedule)]))

/-- Embeds `RepositoryConfig.Hash`: SHA-256 of the JSON serialization,
hex-encoded, truncated to the first 16 characters. (The source's fallback
branch for a `json.Marshal` error is unreachable: marshalling this struct
cannot fail.) -/
def RepositoryConfig.Hash (rc : RepositoryConfig) : Str :=
  (hexEncode (sha256 (utf8Encode (jsonMarshalRepositoryConfig rc)))).take 16

/-! ## Wildcard pattern matching (two implementations in the sources) -/

/-- Embeds the package-level `matchesPattern` of the api/v1alpha1
KopiaMaintenance types file: special cases for a pattern that is exactly
`*`, or that starts and/or ends with `*`; any other pattern requires exact
equality. -/
def matchesPattern (str pattern : Str) : Bool :=
  if pattern = ['*'] then true
  else if goStartsWith pattern ['*'] && goEndsWith pattern ['*'] then
    goContains str ((pattern.drop 1).dropLast)
  else if goStartsWith pattern ['*'] then
    goEndsWith str (pattern.drop 1)
  else if goEndsWith pattern ['*'] then
    goStartsWith str pattern.dropLast
  else str == pattern

/-- Embeds `KopiaMaintenanceReconciler.matchesPattern`: rewrites `*` to `.*`
and `?` to `.`, anchors with `^`/`$`, then instead of regexp matching
special-cases leading/trailing `.*` and otherwise compares literally against
the anchor-trimmed rewritten pattern. -/
def KopiaMaintenanceReconciler.matchesPattern (str pattern : Str) : Bool :=
  if pattern = ['*'] then true
  else
    let p1 := goReplaceAll pattern ['*'] ['.', '*']
    let p2 := goReplaceAll p1 ['?'] ['.']
    let p := '^' :: p2 ++ ['$']
    if goStartsWith p ['^', '.', '*'] && goEndsWith p ['.', '*', '$'] then
      goContains str (((p.drop 3).dropLast).dropLast.dropLast)
    else if goStartsWith p ['^', '.', '*'] then
      goEndsWith str ((p.drop 3).dropLast)
    else if goEndsWith p ['.', '*', '$'] then
      goStartsWith str (((p.drop 1).dropLast).dropLast.dropLast)
    else str == goTrim p ['^', '$']

/-! ## API data model (api/v1alpha1 KopiaMaintenance, cluster-scoped selector variant) -/

/-- The Go source defines `ReplicationSourceKopiaCA` with the same layout as
`CustomCASpec` (the mover converts between them with a direct pointer cast). -/
abbrev ReplicationSourceKopiaCA := CustomCASpec

/-- Go map[string]string lookup `m[k]`, returning the zero value "" when the
key is absent. -/
def mapGet (m : List (Str × Str)) (k : Str) : Str :=
  match m.find? (fun p => p.1 == k) with
  | some p => p.2
  | none => []

/-- Embeds `corev1.ResourceRequirements` as requests/limits maps from
resource name to quantity string. -/
structure ResourceRequirements where
  Requests : List (Str × Str)
  Limits : List (Str × Str)
deriving DecidableEq

/-- Embeds `MaintenanceCronJobSpec` (the legacy embedded maintenance
configuration of a ReplicationSource). -/
structure MaintenanceCronJobSpec where
  Enabled : Option Bool
  Schedule : Str
  Suspend : Option Bool
  SuccessfulJobsHistoryLimit : Option Int
  FailedJobsHistoryLimit : Option Int
  Resources : Option ResourceRequirements
deriving DecidableEq

/-- Embeds the fields of `ReplicationSourceKopiaSpec` that the maintenance
core reads. -/
structure ReplicationSourceKopiaSpec where
  Repository : Str
  CustomCA : ReplicationSourceKopiaCA
  MaintenanceCronJob : Option MaintenanceCronJobSpec
  MaintenanceIntervalDays : Option Int
deriving DecidableEq

/-- Embeds the fields of `ReplicationSourceSpec` that the maintenance core
reads. -/
structure ReplicationSourceSpec where
  Kopia : Option ReplicationSourceKopiaSpec
deriving DecidableEq

/-- Embeds a `ReplicationSource` object (name, namespace, labels, spec). -/
structure ReplicationSource where
  Name : Str
  Namespace : Str
  Labels : List (Str × Str)
  Spec : ReplicationSourceSpec
deriving DecidableEq

/-- Embeds `NamespaceSelector`. -/
structure NamespaceSelector where
  MatchNames : List Str
  MatchLabels : List (Str × Str)
  ExcludeNames : List Str
deriving DecidableEq

/-- Embeds `CustomCASelector`. -/
structure CustomCASelector where
  SecretName : Str
  ConfigMapName : Str
deriving DecidableEq

/-- Embeds `KopiaRepositorySelector`. -/
structure KopiaRepositorySelector where
  Repository : Str
  NamespaceSelector : Option NamespaceSelector
  CustomCA : Option CustomCASelector
  RepositoryType : Str
  Labels : List (Str × Str)
deriving DecidableEq

/-- Embeds `KopiaRepositorySpec` (direct repository mode configuration). -/
structure KopiaRepositorySpec where
  Repository : Str
  Namespace : Str
  CustomCA : Option ReplicationSourceKopiaCA
  RepositoryType : Str
deriving DecidableEq

/-- Embeds `KopiaMaintenanceSpec` (cluster-scoped selector variant). -/
structure KopiaMaintenanceSpec where
  RepositorySelector : Option KopiaRepositorySelector
  Repository : Option KopiaRepositorySpec
  Schedule : Str
  Enabled : Option Bool
  Priority : Int
  Suspend : Option Bool
  SuccessfulJobsHistoryLimit : Option Int
  FailedJobsHistoryLimit : Option Int
  Resources : Option ResourceRequirements
deriving DecidableEq

/-- Embeds a `KopiaMaintenance` object (cluster-scoped: identified by name). -/
structure KopiaMaintenance where
  Name : Str
  Spec : KopiaMaintenanceSpec
deriving DecidableEq

/-- Embeds `KopiaMaintenance.IsDirectRepositoryMode`. -/
def KopiaMaintenance.IsDirectRepositoryMode (km : KopiaMaintenance) : Bool :=
  km.Spec.Repository.isSome

/-- Embeds `KopiaMaintenance.matchesNamespace` (api types file): exclusion
list first, then the match-names list; the match-labels clause is left
unimplemented in this copy of the source (a comment defers it to the
controller). -/
def KopiaMaintenance.matchesNamespace (km : KopiaMaintenance) (namespc : Str) : Bool :=
  match km.Spec.RepositorySelector with
  | none => true
  | some sel =>
    match sel.NamespaceSelector with
    | none => true
    | some ns =>
      if ns.ExcludeNames.any (fun excluded => namespc == excluded) then false
      else if ns.MatchNames ≠ [] && !(ns.MatchNames.any (fun n => namespc == n)) then false
      else true

/-- Embeds `KopiaMaintenance.matchesCustomCA` (api types file): each selector
field is compared only when both it and the source-side field are non-empty.
(`Matches` only calls this under a non-nil `RepositorySelector.CustomCA`
guard; the impossible nil case is mapped to `true`.) -/
def KopiaMaintenance.matchesCustomCA (km : KopiaMaintenance) (ca : ReplicationSourceKopiaCA) : Bool :=
  match km.Spec.RepositorySelector with
  | none => true
  | some sel =>
    match sel.CustomCA with
    | none => true
    | some selector =>
      (selector.SecretName = [] || ca.SecretName = [] ||
        matchesPattern ca.SecretName selector.SecretName) &&
      (selector.ConfigMapName = [] || ca.ConfigMapName = [] ||
        matchesPattern ca.ConfigMapName selector.ConfigMapName)

/-- Embeds `KopiaMaintenance.matchesLabels` (api types file): the source's
labels must agree with every selector label. -/
def KopiaMaintenance.matchesLabels (km : KopiaMaintenance) (sourceLabels : List (Str × Str)) : Bool :=
  match km.Spec.RepositorySelector with
  | none => true
  | some sel => sel.Labels.all (fun kv => mapGet sourceLabels kv.1 == kv.2)

/-- Embeds `KopiaMaintenance.Matches` (api types file): never matches in
direct repository mode or without a selector; otherwise conjunction of the
repository-pattern, namespace, custom-CA, and label clauses, each skipped
when its selector field is absent. -/
def KopiaMaintenance.Matches (km : KopiaMaintenance) (source : ReplicationSource) : Bool :=
  match source.Spec.Kopia with
  | none => false
  | some kopia =>
    if km.IsDirectRepositoryMode then false
    else
      match km.Spec.RepositorySelector with
      | none => false
      | some sel =>
        (sel.Repository = [] || matchesPattern kopia.Repository sel.Repository) &&
        (sel.NamespaceSelector.isNone || km.matchesNamespace source.Namespace) &&
        (sel.CustomCA.isNone || km.matchesCustomCA kopia.CustomCA) &&
        (sel.Labels = [] || km.matchesLabels source.Labels)

/-- Embeds `KopiaMaintenance.Validate` (api types file, cluster-scoped
variant): `none` is a nil error, `some msg` the returned error message. -/
def KopiaMaintenance.Validate (km : KopiaMaintenance) : Option Str :=
  let hasSelector := km.Spec.RepositorySelector.isSome
  let hasRepository := km.Spec.Repository.isSome
  if !hasSelector && !hasRepository then
    some "either repositorySelector or repository must be specified".toList
  else if hasSelector && hasRepository then
    some "repositorySelector and repository are mutually exclusive - specify only one".toList
  else
    match km.Spec.Repository with
    | some repo =>
      if repo.Repository = [] then
        some "repository.repository field is required when using direct repository mode".toList
      else none
    | none => none

/-! ## KopiaMaintenanceReconciler matching (kopiamaintenance controller copy) -/

/-- Embeds `KopiaMaintenanceReconciler.matchesNamespace`. The namespace
object lookup (for the match-labels clause) is the out-of-scope collaborator,
passed as `nsGet`; a lookup error makes the clause return false, as in the
source. -/
def KopiaMaintenanceReconciler.matchesNamespace (nsGet : Str → Option (List (Str × Str)))
    (namespc : Str) (selector : NamespaceSelector) : Bool :=
  if selector.ExcludeNames.any (fun excluded => namespc == excluded) then false
  else if selector.MatchNames ≠ [] && !(selector.MatchNames.any (fun n => namespc == n)) then
    false
  else if selector.MatchLabels ≠ [] then
    match nsGet namespc with
    | none => false
    | some nsLabels => selector.MatchLabels.all (fun kv => mapGet nsLabels kv.1 == kv.2)
  else true

/-- Embeds `KopiaMaintenanceReconciler.matchesCustomCA`. -/
def KopiaMaintenanceReconciler.matchesCustomCA (ca : ReplicationSourceKopiaCA)
    (selector : CustomCASelector) : Bool :=
  (selector.SecretName = [] || ca.SecretName = [] ||
    KopiaMaintenanceReconciler.matchesPattern ca.SecretName selector.SecretName) &&
  (selector.ConfigMapName = [] || ca.ConfigMapName = [] ||
    KopiaMaintenanceReconciler.matchesPattern ca.ConfigMapName selector.ConfigMapName)

/-- Embeds `KopiaMaintenanceReconciler.matchesLabels`. -/
def KopiaMaintenanceReconciler.matchesLabels (sourceLabels selectorLabels : List (Str × Str)) : Bool :=
  selectorLabels.all (fun kv => mapGet sourceLabels kv.1 == kv.2)

/-- Embeds `KopiaMaintenanceReconciler.maintenanceMatchesSource`. The source
reads `maintenance.Spec.RepositorySelector` and dereferences it without a nil
check, so a maintenance without a selector (in particular every direct
repository mode maintenance) makes the Go function panic; the panic is
embedded as `none`. -/
def KopiaMaintenanceReconciler.maintenanceMatchesSource
    (nsGet : Str → Option (List (Str × Str)))
    (maintenance : KopiaMaintenance) (source : ReplicationSource) : Option Bool :=
  match source.Spec.Kopia with
  | none => some false
  | some kopia =>
    match maintenance.Spec.RepositorySelector with
    | none => none
    | some selector =>
      some ((selector.Repository = [] ||
          KopiaMaintenanceReconciler.matchesPattern kopia.Repository selector.Repository) &&
        (match selector.NamespaceSelector with
         | none => true
         | some ns => KopiaMaintenanceReconciler.matchesNamespace nsGet source.Namespace ns) &&
        (match selector.CustomCA with
         | none => true
         | some ca => KopiaMaintenanceReconciler.matchesCustomCA kopia.CustomCA ca) &&
        (selector.Labels = [] ||
          KopiaMaintenanceReconciler.matchesLabels source.Labels selector.Labels))

/-- Embeds `KopiaMaintenanceReconciler.isHighestPriority`: the maintenance
wins unless some other matching maintenance has strictly higher priority, or
equal priority and a lexicographically smaller name. A panic while matching
one of the others (see `maintenanceMatchesSource`) is propagated as `none`. -/
def KopiaMaintenanceReconciler.isHighestPriority (nsGet : Str → Option (List (Str × Str)))
    (maintenance : KopiaMaintenance) (source : ReplicationSource) :
    List KopiaMaintenance → Option Bool
  | [] => some true
  | other :: rest =>
    match KopiaMaintenanceReconciler.maintenanceMatchesSource nsGet other source with
    | none => none
    | some true =>
      if decide (other.Spec.Priority > maintenance.Spec.Priority) ||
          (other.Spec.Priority == maintenance.Spec.Priority &&
            strLt other.Name maintenance.Name) then
        some false
      else
        KopiaMaintenanceReconciler.isHighestPriority nsGet maintenance source rest
    | some false =>
      KopiaMaintenanceReconciler.isHighestPriority nsGet maintenance source rest

/-! ## EnhancedMaintenanceManager matching and arbitration (mover/kopia) -/

/-- Embeds `EnhancedMaintenanceManager.matchesPattern`: only the literal
pattern `*` is a wildcard; everything else is exact comparison. -/
def EnhancedMaintenanceManager.matchesPattern (str pattern : Str) : Bool :=
  if pattern = ['*'] then true else str == pattern

/-- Embeds `EnhancedMaintenanceManager.matchesNamespace` (same structure as
the reconciler copy, with the namespace lookup collaborator `nsGet`). -/
def EnhancedMaintenanceManager.matchesNamespace (nsGet : Str → Option (List (Str × Str)))
    (namespc : Str) (selector : NamespaceSelector) : Bool :=
  if selector.ExcludeNames.any (fun excluded => namespc == excluded) then false
  else if selector.MatchNames ≠ [] && !(selector.MatchNames.any (fun n => namespc == n)) then
    false
  else if selector.MatchLabels ≠ [] then
    match nsGet namespc with
    | none => false
    | some nsLabels => selector.MatchLabels.all (fun kv => mapGet nsLabels kv.1 == kv.2)
  else true

/-- Embeds `EnhancedMaintenanceManager.matchesCustomCA` (uses the enhanced
manager's own trivial pattern matcher). -/
def EnhancedMaintenanceManager.matchesCustomCA (ca : ReplicationSourceKopiaCA)
    (selector : CustomCASelector) : Bool :=
  (selector.SecretName = [] || ca.SecretName = [] ||
    EnhancedMaintenanceManager.matchesPattern ca.SecretName selector.SecretName) &&
  (selector.ConfigMapName = [] || ca.ConfigMapName = [] ||
    EnhancedMaintenanceManager.matchesPattern ca.ConfigMapName selector.ConfigMapName)

/-- Embeds `EnhancedMaintenanceManager.matchesLabels`. -/
def EnhancedMaintenanceManager.matchesLabels (sourceLabels selectorLabels : List (Str × Str)) : Bool :=
  selectorLabels.all (fun kv => mapGet sourceLabels kv.1 == kv.2)

/-- Embeds `EnhancedMaintenanceManager.maintenanceMatches`: false for a
source without Kopia, for direct repository mode, and for a missing selector;
otherwise the conjunction of the selector clauses. -/
def EnhancedMaintenanceManager.maintenanceMatches (nsGet : Str → Option (List (Str × Str)))
    (maintenance : KopiaMaintenance) (source : ReplicationSource) : Bool :=
  match source.Spec.Kopia with
  | none => false
  | some kopia =>
    if maintenance.IsDirectRepositoryMode then false
    else
      match maintenance.Spec.RepositorySelector with
      | none => false
      | some selector =>
        (selector.Repository = [] ||
          EnhancedMaintenanceManager.matchesPattern kopia.Repository selector.Repository) &&
        (match selector.NamespaceSelector with
         | none => true
         | some ns => EnhancedMaintenanceManager.matchesNamespace nsGet source.Namespace ns) &&
        (match selector.CustomCA with
         | none => true
         | some ca => EnhancedMaintenanceManager.matchesCustomCA kopia.CustomCA ca) &&
        (selector.Labels = [] ||
          EnhancedMaintenanceManager.matchesLabels source.Labels selector.Labels)

/-- The comparison function passed to `sort.Slice` in
`findBestMatchingMaintenanceConfig`: priority descending, name ascending on
ties. -/
def EnhancedMaintenanceManager.maintenanceLess (a b : KopiaMaintenance) : Bool :=
  if a.Spec.Priority = b.Spec.Priority then strLt a.Name b.Name
  else decide (a.Spec.Priority > b.Spec.Priority)

/-- Inserts an element into a list sorted by the boolean comparison `less`. -/
def insertSortedBy (less : α → α → Bool) (x : α) : List α → List α
  | [] => [x]
  | y :: ys => if less x y then x :: y :: ys else y :: insertSortedBy less x ys

/-- Sorting by a boolean comparison; embeds the effect of Go's `sort.Slice`
(for a strict total comparison the sorted order is unique, so the choice of
sorting algorithm is immaterial). -/
def sortedBy (less : α → α → Bool) : List α → List α
  | [] => []
  | x :: xs => insertSortedBy less x (sortedBy less xs)

/-- Embeds `EnhancedMaintenanceManager.findBestMatchingMaintenanceConfig`:
filters the listed maintenances to selector-mode ones matching the source,
sorts by priority (highest first) breaking ties by name, and returns the
first candidate (or `none` when there is no candidate). -/
def EnhancedMaintenanceManager.findBestMatchingMaintenanceConfig
    (nsGet : Str → Option (List (Str × Str)))
    (items : List KopiaMaintenance) (source : ReplicationSource) : Option KopiaMaintenance :=
  let candidates := items.filter (fun m =>
    !m.IsDirectRepositoryMode && EnhancedMaintenanceManager.maintenanceMatches nsGet m source)
  (sortedBy EnhancedMaintenanceManager.maintenanceLess candidates).head?

/-! ## MaintenanceManager CronJob lifecycle (mover/kopia, per-namespace manager) -/

/-- Embeds the `maxCronJobNameLength` constant. -/
def maxCronJobNameLength : Nat := 52

/-- Embeds `MaintenanceManager.generateCronJobName`: a fixed prefix plus the
repository hash, truncated to 52 characters. -/
def MaintenanceManager.generateCronJobName (repoHash : Str) : Str :=
  let name := "kopia-maintenance-".toList ++ repoHash
  if name.length > maxCronJobNameLength then name.take maxCronJobNameLength else name

/-- Embeds `MaintenanceManager.isSuspended` (the owner passed at every call
site is a ReplicationSource, so it is embedded at that type): the suspend
flag from the embedded maintenance configuration, defaulting to false. -/
def MaintenanceManager.isSuspended (source : ReplicationSource) : Bool :=
  match source.Spec.Kopia with
  | some kopia =>
    match kopia.MaintenanceCronJob with
    | some mcj => mcj.Suspend.getD false
    | none => false
  | none => false

/-- Embeds `MaintenanceManager.getSuccessfulJobsHistoryLimit`
(default 3). -/
def MaintenanceManager.getSuccessfulJobsHistoryLimit (source : ReplicationSource) : Int :=
  match source.Spec.Kopia with
  | some kopia =>
    match kopia.MaintenanceCronJob with
    | some mcj => mcj.SuccessfulJobsHistoryLimit.getD 3
    | none => 3
  | none => 3

/-- Embeds `MaintenanceManager.getFailedJobsHistoryLimit` (default 1). -/
def MaintenanceManager.getFailedJobsHistoryLimit (source : ReplicationSource) : Int :=
  match source.Spec.Kopia with
  | some kopia =>
    match kopia.MaintenanceCronJob with
    | some mcj => mcj.FailedJobsHistoryLimit.getD 1
    | none => 1
  | none => 1

/-- The default maintenance container resources from
`MaintenanceManager.getMaintenanceResources`. -/
def defaultMaintenanceResources : ResourceRequirements :=
  { Requests := [("cpu".toList, "100m".toList), ("memory".toList, "256Mi".toList)],
    Limits := [("cpu".toList, "500m".toList), ("memory".toList, "1Gi".toList)] }

/-- Embeds `MaintenanceManager.getMaintenanceResources`. -/
def MaintenanceManager.getMaintenanceResources (source : ReplicationSource) : ResourceRequirements :=
  match source.Spec.Kopia with
  | some kopia =>
    match kopia.MaintenanceCronJob with
    | some mcj => mcj.Resources.getD defaultMaintenanceResources
    | none => defaultMaintenanceResources
  | none => defaultMaintenanceResources

/-- Projection of a `batchv1.CronJob` onto the fields the maintenance claims
speak about: name, namespace, cron schedule, suspend flag, history limits,
and container resources. -/
structure CronJob where
  Name : Str
  Namespace : Str
  Schedule : Str
  Suspend : Bool
  SuccessfulJobsHistoryLimit : Int
  FailedJobsHistoryLimit : Int
  Resources : ResourceRequirements
deriving DecidableEq

/-- Embeds `MaintenanceManager.buildMaintenanceCronJob` (restricted to the
projected fields): name from the repository hash, namespace from the
repository configuration, schedule from the repository configuration, and
suspend/limits/resources from the owning source's embedded configuration. -/
def MaintenanceManager.buildMaintenanceCronJob (repoConfig : RepositoryConfig)
    (owner : ReplicationSource) : CronJob :=
  { Name := MaintenanceManager.generateCronJobName repoConfig.Hash,
    Namespace := repoConfig.Namespace,
    Schedule := repoConfig.Schedule,
    Suspend := MaintenanceManager.isSuspended owner,
    SuccessfulJobsHistoryLimit := MaintenanceManager.getSuccessfulJobsHistoryLimit owner,
    FailedJobsHistoryLimit := MaintenanceManager.getFailedJobsHistoryLimit owner,
    Resources := MaintenanceManager.getMaintenanceResources owner }

/-- The three exits of `ensureMaintenanceCronJob`: create a new CronJob,
update the existing one, or leave it untouched. -/
inductive EnsureAction where
  | created
  | updated
  | unchanged
deriving DecidableEq

/-- Embeds `MaintenanceManager.ensureMaintenanceCronJob`. `existing` is the
CronJob the cluster returned for the generated name (`none` embeds the
IsNotFound case). When no CronJob exists the built one is created; when one
exists and its schedule differs from the built one's, the existing object's
schedule field is overwritten and the object updated in place; otherwise
nothing is written. -/
def MaintenanceManager.ensureMaintenanceCronJob (existing : Option CronJob)
    (repoConfig : RepositoryConfig) (owner : ReplicationSource) : CronJob × EnsureAction :=
  let cronJob := MaintenanceManager.buildMaintenanceCronJob repoConfig owner
  match existing with
  | none => (cronJob, EnsureAction.created)
  | some ex =>
    if ex.Schedule ≠ cronJob.Schedule then
      ({ ex with Schedule := cronJob.Schedule }, EnsureAction.updated)
    else (ex, EnsureAction.unchanged)

/-! ## CronJob name generation in the KopiaMaintenance controller -/

/-- Embeds the name computation at the end of
`KopiaMaintenanceReconciler.ensureCronJob`: SHA-256 over `namespace/name`,
the maintenance name truncated to 34 characters, and the CronJob named
`kopia-maint-<truncated>-<first 8 hash bytes in hex>`. -/
def KopiaMaintenanceReconciler.ensureCronJobName (namespc name : Str) : Str :=
  let hash := sha256 (utf8Encode (namespc ++ '/' :: name))
  let maxNameLength := 34
  let truncatedName := if name.length > maxNameLength then name.take maxNameLength else name
  "kopia-maint-".toList ++ truncatedName ++ '-' :: hexEncode (hash.take 8)

/-- Embeds the name computation in
`KopiaMaintenanceReconciler.cleanupCronJob`, which repeats the derivation of
`ensureCronJob` line for line. -/
def KopiaMaintenanceReconciler.cleanupCronJobName (namespc name : Str) : Str :=
  let hash := sha256 (utf8Encode (namespc ++ '/' :: name))
  let maxNameLength := 34
  let truncatedName := if name.length > maxNameLength then name.take maxNameLength else name
  "kopia-maint-".toList ++ truncatedName ++ '-' :: hexEncode (hash.take 8)

/-! ## Centralized first-wins schedule arbitration -/

/-- Modelled from the spec: the conflict note the centralized manager writes
into the scheduled job's `volsync.backube/schedule-conflict` annotation when
it rejects a schedule change — the rejected value, the rejecting namespace,
and a timestamp. -/
structure ConflictNote where
  rejectedSchedule : Str
  rejectingNamespace : Str
  timestamp : Nat
deriving DecidableEq

/-- Modelled from the spec: the state of the single centralized scheduled
maintenance job for one repository identity — its live cron schedule, the
namespace that set that schedule, and the latest conflict note. -/
structure CentralCronJob where
  schedule : Str
  setterNamespace : Str
  conflictNote : Option ConflictNote
deriving DecidableEq

/-- Modelled from the spec: `MaintenanceManager.EnsureMaintenanceCronJob`
(the centralized first-wins manager, absent from the provided sources; only
its callers, tests and documentation are present). A first contributing
source creates the job with its schedule; a later source proposing a
different schedule updates it only when it comes from the namespace that set
the current schedule, and is otherwise rejected with a conflict note carrying
the rejected value, the rejecting namespace, and the time. -/
def EnsureMaintenanceCronJobCentral (state : Option CentralCronJob)
    (sourceNamespace schedule : Str) (now : Nat) : CentralCronJob :=
  match state with
  | none =>
    { schedule := schedule, setterNamespace := sourceNamespace, conflictNote := none }
  | some cj =>
    if schedule == cj.schedule then cj
    else if sourceNamespace == cj.setterNamespace then
      { cj with schedule := schedule, setterNamespace := sourceNamespace }
    else
      { cj with conflictNote := some (ConflictNote.mk schedule sourceNamespace now) }

/-- A reference a still-existing source holds on a repository identity. -/
structure SourceRef where
  sourceNamespace : Str
  identity : Str
deriving DecidableEq

/-- Modelled from the spec: the orphan cleanup of the centralized manager —
the scheduled job for an identity is kept, unchanged, as long as at least one
source still references that identity, and deleted only when none does. -/
def CleanupOrphanedCentral (state : Option CentralCronJob)
    (remaining : List SourceRef) (identity : Str) : Option CentralCronJob :=
  if remaining.any (fun r => r.identity == identity) then state else none

/-! ## Concrete example objects used by the closed theorems -/

/-- The first configuration from the `RepositoryConfigHash` unit test of the
maintenance manager: repository `repo1` in namespace `ns1`, schedule 2 AM. -/
def testConfig1 : RepositoryConfig :=
  { Repository := "repo1".toList, CustomCA := none,
    Namespace := "ns1".toList, Schedule := "0 2 * * *".toList }

/-- The second configuration from the same unit test: identical repository,
different namespace and schedule (the test asserts the hashes are equal). -/
def testConfig2 : RepositoryConfig :=
  { Repository := "repo1".toList, CustomCA := none,
    Namespace := "ns2".toList, Schedule := "0 3 * * *".toList }

/-- `testConfig1` with the custom CA pointing at a zero-value struct instead
of nil. -/
def testConfig1zeroCA : RepositoryConfig :=
  { Repository := "repo1".toList, CustomCA := some zeroCustomCA,
    Namespace := "ns1".toList, Schedule := "0 2 * * *".toList }

/-- A KopiaMaintenance in direct repository mode (repository set, selector
absent). -/
def directModeMaintenance : KopiaMaintenance :=
  { Name := "direct-maint".toList,
    Spec := { RepositorySelector := none,
              Repository := some { Repository := "repo-secret".toList, Namespace := [],
                                   CustomCA := none, RepositoryType := [] },
              Schedule := [], Enabled := none, Priority := 0, Suspend := none,
              SuccessfulJobsHistoryLimit := none, FailedJobsHistoryLimit := none,
              Resources := none } }

/-- A ReplicationSource backed by a Kopia repository, used as the candidate
in the matching theorems. -/
def exampleSource : ReplicationSource :=
  { Name := "test-source".toList, Namespace := "test-namespace".toList, Labels := [],
    Spec := { Kopia := some { Repository := "test-repo-secret".toList,
                              CustomCA := zeroCustomCA,
                              MaintenanceCronJob := none,
                              MaintenanceIntervalDays := none } } }

/-- A ReplicationSource whose embedded maintenance configuration sets
`suspend: true` with the default 2 AM schedule. -/
def suspendedSource : ReplicationSource :=
  { Name := "test-source".toList, Namespace := "ns1".toList, Labels := [],
    Spec := { Kopia := some { Repository := "repo1".toList,
                              CustomCA := zeroCustomCA,
                              MaintenanceCronJob := some
                                { Enabled := none, Schedule := "0 2 * * *".toList,
                                  Suspend := some true,
                                  SuccessfulJobsHistoryLimit := none,
                                  FailedJobsHistoryLimit := none, Resources := none },
                              MaintenanceIntervalDays := none } } }

/-- An existing maintenance CronJob whose schedule already equals the winning
configuration's but whose suspend flag does not. -/
def existingCronJob : CronJob :=
  { Name := MaintenanceManager.generateCronJobName testConfig1.Hash,
    Namespace := "ns1".toList, Schedule := "0 2 * * *".toList, Suspend := false,
    SuccessfulJobsHistoryLimit := 3, FailedJobsHistoryLimit := 1,
    Resources := defaultMaintenanceResources }

/-- A maintenance name of 200 characters, for the name-length theorems. -/
def longName200 : Str := List.replicate 200 'a'

/-- A selector-mode maintenance policy named `alpha` with priority 0 whose
empty selector matches every Kopia source. -/
def alphaPolicy : KopiaMaintenance :=
  { Name := "alpha".toList,
    Spec := { RepositorySelector := some { Repository := [], NamespaceSelector := none,
                                           CustomCA := none, RepositoryType := [], Labels := [] },
              Repository := none, Schedule := [], Enabled := none, Priority := 0,
              Suspend := none, SuccessfulJobsHistoryLimit := none,
              FailedJobsHistoryLimit := none, Resources := none } }

/-- A selector-mode maintenance policy named `beta`, identical to `alpha`
except for its name. -/
def betaPolicy : KopiaMaintenance :=
  { Name := "beta".toList,
    Spec := { RepositorySelector := some { Repository := [], NamespaceSelector := none,
                                           CustomCA := none, RepositoryType := [], Labels := [] },
              Repository := none, Schedule := [], Enabled := none, Priority := 0,
              Suspend := none, SuccessfulJobsHistoryLimit := none,
              FailedJobsHistoryLimit := none, Resources := none } }

/-! ## C1: the identity hash and namespace/schedule -/

set_option maxRecDepth 100000 in
/-- C1: the claim — and the repository's own `RepositoryConfigHash` unit
test and documentation ("the hash excludes namespace and schedule") — says
two configurations that agree on `Repository` and `CustomCA` hash alike
regardless of namespace and schedule. The code JSON-marshals the whole
struct, whose tags keep `namespace` unconditionally and `schedule` whenever
non-empty, so the two configurations of the unit test produce different
hashes: evaluating `Hash` at the test's own inputs refutes the claim. -/
theorem hash_depends_on_namespace_and_schedule :
    testConfig1.Hash ≠ testConfig2.Hash := by
  decide

/-! ## C2: wildcard pattern matching -/

/-- C2: the claim (and the matcher's own comment, "? matches any single
character", plus the selector field's documented example `backup-?-repo`)
says `?` matches exactly one character and an empty pattern matches every
name. Both implementations fail the `?` wildcard — the api-types copy falls
through to literal equality, and the reconciler copy compares literally
against the rewritten pattern — and the api-types matcher rejects every
non-empty name under an empty pattern; the prefix form `prod-*` behaves as
claimed. -/
theorem question_wildcard_not_implemented :
    matchesPattern "backup-1-repo".toList "backup-?-repo".toList = false ∧
    KopiaMaintenanceReconciler.matchesPattern "backup-1-repo".toList "backup-?-repo".toList = false ∧
    matchesPattern "x".toList [] = false ∧
    matchesPattern "prod-db".toList "prod-*".toList = true ∧
    matchesPattern "prod-".toList "prod-*".toList = true ∧
    matchesPattern "staging-db".toList "prod-*".toList = false := by
  decide

/-! ## C5: in-place update of the maintenance CronJob -/

set_option maxRecDepth 100000 in
/-- C5 counterexample: an existing CronJob whose suspend flag differs from
the winning configuration (which sets `suspend: true`) while the schedules
agree is left completely untouched — afterwards its suspend flag still
differs from the winning configuration, refuting "afterwards every one of
those fields equals the winning configuration". -/
theorem ensure_ignores_suspend_counterexample :
    (MaintenanceManager.ensureMaintenanceCronJob (some existingCronJob) testConfig1
      suspendedSource).2 = EnsureAction.unchanged ∧
    (MaintenanceManager.ensureMaintenanceCronJob (some existingCronJob) testConfig1
      suspendedSource).1.Suspend = false ∧
    (MaintenanceManager.buildMaintenanceCronJob testConfig1 suspendedSource).Suspend = true := by
  decide

/-- C5 amended: when a CronJob already exists, `ensureMaintenanceCronJob`
never recreates it — the resulting object keeps the existing name, namespace,
suspend flag, history limits and resources — and only the schedule is
reconciled to the winning configuration's value. Differences in suspend,
history limits or resources alone do not trigger any update. -/
theorem ensure_updates_only_schedule_in_place (ex : CronJob) (rc : RepositoryConfig)
    (owner : ReplicationSource) :
    (MaintenanceManager.ensureMaintenanceCronJob (some ex) rc owner).2 ≠ EnsureAction.created ∧
    (MaintenanceManager.ensureMaintenanceCronJob (some ex) rc owner).1.Name = ex.Name ∧
    (MaintenanceManager.ensureMaintenanceCronJob (some ex) rc owner).1.Namespace = ex.Namespace ∧
    (MaintenanceManager.ensureMaintenanceCronJob (some ex) rc owner).1.Schedule = rc.Schedule ∧
    (MaintenanceManager.ensureMaintenanceCronJob (some ex) rc owner).1.Suspend = ex.Suspend ∧
    (MaintenanceManager.ensureMaintenanceCronJob (some ex) rc owner).1.SuccessfulJobsHistoryLimit
      = ex.SuccessfulJobsHistoryLimit ∧
    (MaintenanceManager.ensureMaintenanceCronJob (some ex) rc owner).1.FailedJobsHistoryLimit
      = ex.FailedJobsHistoryLimit ∧
    (MaintenanceManager.ensureMaintenanceCronJob (some ex) rc owner).1.Resources = ex.Resources := by
  unfold MaintenanceManager.ensureMaintenanceCronJob MaintenanceManager.buildMaintenanceCronJob
  by_cases h : ex.Schedule = rc.Schedule <;> simp [h]

/-! ## C6: KopiaMaintenance validation -/

/-- C6: validation of the cluster-scoped KopiaMaintenance succeeds exactly
when precisely one of the selector and the direct repository reference is
set and, in direct mode, the credential (repository secret) name is
non-empty; every other combination — both set, neither set, or a direct-mode
policy with an empty credential name — is rejected with an error. -/
theorem validate_mutual_exclusivity (km : KopiaMaintenance) :
    km.Validate = none ↔
      ((km.Spec.RepositorySelector.isSome ∧ km.Spec.Repository = none) ∨
       (km.Spec.RepositorySelector = none ∧
         ∃ repo, km.Spec.Repository = some repo ∧ repo.Repository ≠ [])) := by
  unfold KopiaMaintenance.Validate
  cases hsel : km.Spec.RepositorySelector <;> cases hrep : km.Spec.Repository <;>
    simp [hsel, hrep]

/-! ## C7: nil versus zero-value custom CA in the identity hash -/

set_option maxRecDepth 100000 in
/-- C7 counterexample: the claim says `Hash` treats a nil `customCA` and a
pointer to a zero-value struct identically; evaluating `Hash` at the same
repository/namespace/schedule with the two CA representations yields
different tokens. -/
theorem hash_nil_vs_zero_CA_counterexample :
    testConfig1.Hash ≠ testConfig1zeroCA.Hash := by
  decide

/-- C7 amended: the hash does not normalize the custom CA before hashing —
a nil `customCA` omits the key from the JSON serialization while a zero-value
struct serializes as an empty object, so for every repository, namespace and
schedule the two hash inputs differ (and at the concrete test configuration
the truncated hashes differ, per the counterexample). -/
theorem hash_input_distinguishes_nil_and_zero_CA (repo ns sched : Str) :
    jsonMarshalRepositoryConfig (RepositoryConfig.mk repo none ns sched) ≠
      jsonMarshalRepositoryConfig (RepositoryConfig.mk repo (some zeroCustomCA) ns sched) := by
  intro h
  unfold jsonMarshalRepositoryConfig jsonObject at h
  simp only [List.cons.injEq, true_and] at h
  have h2 := List.append_cancel_right h
  simp only [joinComma] at h2
  simp only [List.cons.injEq, true_and] at h2
  have h3 := List.append_cancel_left h2
  simp only [List.cons.injEq, true_and] at h3
  have hlen := congrArg List.length h3
  simp only [List.length_append, List.length_cons] at hlen
  omega

/-! ## C8: direct repository mode and source matching -/

/-- C8: the claim says every match function returns false (rather than
failing) for a direct-mode policy. The api-types `Matches` and the enhanced
manager's `maintenanceMatches` do return false, but the reconciler's
`maintenanceMatchesSource` dereferences the absent `RepositorySelector` of a
direct-mode policy and panics (embedded as `none`). -/
theorem direct_mode_match_panics :
    KopiaMaintenanceReconciler.maintenanceMatchesSource (fun _ => none)
      directModeMaintenance exampleSource = none ∧
    KopiaMaintenance.Matches directModeMaintenance exampleSource = false ∧
    EnhancedMaintenanceManager.maintenanceMatches (fun _ => none)
      directModeMaintenance exampleSource = false := by
  refine ⟨rfl, ?_, ?_⟩ <;> decide

/-! ## C10: the cleanup name derivation equals the creation name derivation -/

/-- C10: `cleanupCronJob` recomputes the CronJob name with the same hash,
truncation and formatting as `ensureCronJob`, so for every namespace and
maintenance name the cleanup targets exactly the name that was reported as
active. -/
theorem cleanup_name_equals_ensure_name (namespc name : Str) :
    KopiaMaintenanceReconciler.cleanupCronJobName namespc name =
      KopiaMaintenanceReconciler.ensureCronJobName namespc name := by
  rfl

/-! ## C3: first-wins schedule arbitration for a shared repository -/

/-- C3: under the first-wins strategy, once the first source has set the
scheduled job's cron schedule, a later reconciliation for a source in a
different namespace proposing a different schedule leaves the schedule
unchanged and records the rejected value, the rejecting namespace, and the
timestamp in the conflict note; and as long as any source still references
the repository identity, cleanup leaves the job — with the originally set
schedule — in place, also after the originating source is gone. -/
theorem first_wins_schedule_persists (nsA nsB s1 s2 : Str) (now1 now2 : Nat)
    (ident : Str) (remaining : List SourceRef)
    (hns : nsB ≠ nsA) (hs : s2 ≠ s1)
    (href : ∃ r ∈ remaining, r.identity = ident) :
    (EnsureMaintenanceCronJobCentral
      (some (EnsureMaintenanceCronJobCentral none nsA s1 now1)) nsB s2 now2).schedule = s1 ∧
    (EnsureMaintenanceCronJobCentral
      (some (EnsureMaintenanceCronJobCentral none nsA s1 now1)) nsB s2 now2).conflictNote =
      some (ConflictNote.mk s2 nsB now2) ∧
    CleanupOrphanedCentral
      (some (EnsureMaintenanceCronJobCentral
        (some (EnsureMaintenanceCronJobCentral none nsA s1 now1)) nsB s2 now2))
      remaining ident =
      some (EnsureMaintenanceCronJobCentral
        (some (EnsureMaintenanceCronJobCentral none nsA s1 now1)) nsB s2 now2) := by
  have hbs : (s2 == s1) = false := beq_eq_false_iff_ne.mpr hs
  have hbn : (nsB == nsA) = false := beq_eq_false_iff_ne.mpr hns
  have hany : remaining.any (fun r => r.identity == ident) = true := by
    obtain ⟨r, hr, hi⟩ := href
    exact List.any_eq_true.mpr ⟨r, hr, by simp [hi]⟩
  refine ⟨?_, ?_, ?_⟩ <;>
    simp [EnsureMaintenanceCronJobCentral, CleanupOrphanedCentral, hbs, hbn, hany]

/-- Witness for C3: source A in `team-a` sets `0 2 * * *` first; source B in
`team-b` later proposes `0 4 * * *` for the same repository identity; with B
still referencing the identity, the schedule remains A's. -/
theorem first_wins_schedule_persists_witness :
    (EnsureMaintenanceCronJobCentral
      (some (EnsureMaintenanceCronJobCentral none "team-a".toList "0 2 * * *".toList 100))
      "team-b".toList "0 4 * * *".toList 200).schedule = "0 2 * * *".toList :=
  (first_wins_schedule_persists "team-a".toList "team-b".toList
    "0 2 * * *".toList "0 4 * * *".toList 100 200 "shared-repo".toList
    [SourceRef.mk "team-b".toList "shared-repo".toList]
    (by decide) (by decide) (by decide)).1

/-! ## C9: generated CronJob name length and uniqueness -/

/-- Hex encoding yields two characters per byte. -/
theorem hexEncode_length (l : List Nat) : (hexEncode l).length = 2 * l.length := by
  induction l with
  | nil => rfl
  | cons b bs ih =>
    simp only [hexEncode, List.map_cons, List.flatten_cons, List.length_append,
      List.length_cons, List.length_nil] at ih ⊢
    omega

/-- C9: the generated scheduled-job name is a pure function of namespace and
name, is at most 63 characters for every input (12-character prefix, at most
34 characters of the name, a separator, and 16 hex characters of hash), and
two maintenance objects whose names truncate to the same 34-character prefix
still get distinct generated names whenever their truncated hashes differ,
because the suffix hashes the full `namespace/name`. -/
theorem ensureCronJobName_length_le_and_unique (namespc name namespc2 name2 : Str)
    (htrunc : (if name.length > 34 then name.take 34 else name) =
        (if name2.length > 34 then name2.take 34 else name2))
    (hhash : hexEncode ((sha256 (utf8Encode (namespc ++ '/' :: name))).take 8) ≠
        hexEncode ((sha256 (utf8Encode (namespc2 ++ '/' :: name2))).take 8)) :
    (KopiaMaintenanceReconciler.ensureCronJobName namespc name).length ≤ 63 ∧
    KopiaMaintenanceReconciler.ensureCronJobName namespc name ≠
      KopiaMaintenanceReconciler.ensureCronJobName namespc2 name2 := by
  constructor
  · have hhex : (hexEncode ((sha256 (utf8Encode (namespc ++ '/' :: name))).take 8)).length ≤ 16 := by
      rw [hexEncode_length]
      have h8 := List.length_take_le 8 (sha256 (utf8Encode (namespc ++ '/' :: name)))
      omega
    have hpre : ("kopia-maint-".toList : Str).length = 12 := rfl
    simp only [KopiaMaintenanceReconciler.ensureCronJobName, List.length_append,
      List.length_cons]
    split
    · have h34 := List.length_take_le 34 name
      omega
    · rename_i h
      simp only [gt_iff_lt, not_lt] at h
      omega
  · intro heq
    simp only [KopiaMaintenanceReconciler.ensureCronJobName] at heq
    rw [htrunc] at heq
    have h1 := List.append_cancel_left heq
    simp only [List.cons.injEq, true_and] at h1
    exact hhash h1

set_option maxRecDepth 1000000 in
/-- Witness for C9: a 200-character maintenance name in two namespaces; the
truncated 34-character prefixes coincide and the hash suffixes differ, so the
generated names stay within 63 characters and are distinct. -/
theorem ensureCronJobName_witness :
    (KopiaMaintenanceReconciler.ensureCronJobName "team-a".toList longName200).length ≤ 63 ∧
    KopiaMaintenanceReconciler.ensureCronJobName "team-a".toList longName200 ≠
      KopiaMaintenanceReconciler.ensureCronJobName "team-b".toList longName200 :=
  ensureCronJobName_length_le_and_unique "team-a".toList longName200
    "team-b".toList longName200 rfl (by decide)

/-! ## C4: priority-then-name arbitration -/

/-- Bytewise string comparison is irreflexive. -/
theorem strLt_irrefl (s : Str) : strLt s s = false := by
  induction s with
  | nil => rfl
  | cons a as ih => simp [strLt, ih]

/-- Characters with equal code points are equal. -/
theorem char_toNat_inj {a b : Char} (h : a.toNat = b.toNat) : a = b :=
  Char.ext (UInt32.ext h)

/-- Bytewise string comparison is transitive. -/
theorem strLt_trans : ∀ (a b c : Str), strLt a b = true → strLt b c = true → strLt a c = true := by
  intro a
  induction a with
  | nil =>
    intro b c hab hbc
    cases b with
    | nil => simp [strLt] at hab
    | cons y ys =>
      cases c with
      | nil => simp [strLt] at hbc
      | cons z zs => simp [strLt]
  | cons x xs ih =>
    intro b c hab hbc
    cases b with
    | nil => simp [strLt] at hab
    | cons y ys =>
      cases c with
      | nil => simp [strLt] at hbc
      | cons z zs =>
        simp only [strLt, Bool.or_eq_true, Bool.and_eq_true, decide_eq_true_eq,
          beq_iff_eq] at hab hbc ⊢
        rcases hab with h1 | ⟨he1, h1s⟩
        · rcases hbc with h2 | ⟨he2, h2s⟩
          · exact Or.inl (Nat.lt_trans h1 h2)
          · subst he2; exact Or.inl h1
        · rcases hbc with h2 | ⟨he2, h2s⟩
          · subst he1; exact Or.inl h2
          · subst he1; subst he2; exact Or.inr ⟨rfl, ih ys zs h1s h2s⟩

/-- Two strings neither of which is bytewise below the other are equal. -/
theorem strLt_conn : ∀ (a b : Str), strLt a b = false → strLt b a = false → a = b := by
  intro a
  induction a with
  | nil =>
    intro b h1 h2
    cases b with
    | nil => rfl
    | cons y ys => simp [strLt] at h1
  | cons x xs ih =>
    intro b h1 h2
    cases b with
    | nil => simp [strLt] at h2
    | cons y ys =>
      simp only [strLt, Bool.or_eq_false_iff, Bool.and_eq_false_iff,
        decide_eq_false_iff_not, not_lt, beq_eq_false_iff_ne] at h1 h2
      have hxy : x = y := by
        apply char_toNat_inj
        omega
      subst hxy
      rcases h1.2 with hne | hs1
      · exact absurd rfl hne
      · rcases h2.2 with hne | hs2
        · exact absurd rfl hne
        · rw [ih ys hs1 hs2]

/-- The sort comparison of the arbiter is irreflexive. -/
theorem maintenanceLess_irrefl (a : KopiaMaintenance) :
    EnhancedMaintenanceManager.maintenanceLess a a = false := by
  simp [EnhancedMaintenanceManager.maintenanceLess, strLt_irrefl]

/-- The sort comparison of the arbiter is transitive. -/
theorem maintenanceLess_trans {a b c : KopiaMaintenance}
    (h1 : EnhancedMaintenanceManager.maintenanceLess a b = true)
    (h2 : EnhancedMaintenanceManager.maintenanceLess b c = true) :
    EnhancedMaintenanceManager.maintenanceLess a c = true := by
  unfold EnhancedMaintenanceManager.maintenanceLess at h1 h2 ⊢
  by_cases hab : a.Spec.Priority = b.Spec.Priority
  · rw [if_pos hab] at h1
    by_cases hbc : b.Spec.Priority = c.Spec.Priority
    · rw [if_pos hbc] at h2
      rw [if_pos (hab.trans hbc)]
      exact strLt_trans _ _ _ h1 h2
    · rw [if_neg hbc] at h2
      have hgt := of_decide_eq_true h2
      rw [if_neg (by omega)]
      exact decide_eq_true (by omega)
  · rw [if_neg hab] at h1
    have hgt := of_decide_eq_true h1
    by_cases hbc : b.Spec.Priority = c.Spec.Priority
    · rw [if_neg (by omega)]
      exact decide_eq_true (by omega)
    · rw [if_neg hbc] at h2
      have hgt2 := of_decide_eq_true h2
      rw [if_neg (by omega)]
      exact decide_eq_true (by omega)

/-- Two maintenances neither of which sorts before the other agree on
priority and name. -/
theorem maintenanceLess_conn {a b : KopiaMaintenance}
    (h1 : EnhancedMaintenanceManager.maintenanceLess a b = false)
    (h2 : EnhancedMaintenanceManager.maintenanceLess b a = false) :
    a.Spec.Priority = b.Spec.Priority ∧ a.Name = b.Name := by
  unfold EnhancedMaintenanceManager.maintenanceLess at h1 h2
  by_cases hab : a.Spec.Priority = b.Spec.Priority
  · rw [if_pos hab] at h1
    rw [if_pos hab.symm] at h2
    exact ⟨hab, strLt_conn _ _ h1 h2⟩
  · rw [if_neg hab] at h1
    rw [if_neg (Ne.symm hab)] at h2
    have hn1 := of_decide_eq_false h1
    have hn2 := of_decide_eq_false h2
    exact absurd (by omega : a.Spec.Priority = b.Spec.Priority) hab

/-- Inserting into a sorted list permutes consing. -/
theorem insertSortedBy_perm {α : Type} (less : α → α → Bool) (x : α) (l : List α) :
    (insertSortedBy less x l).Perm (x :: l) := by
  induction l with
  | nil => simp [insertSortedBy]
  | cons y ys ih =>
    simp only [insertSortedBy]
    split
    · exact List.Perm.refl _
    · exact (ih.cons y).trans (List.Perm.swap x y ys)

/-- Sorting permutes the list. -/
theorem sortedBy_perm {α : Type} (less : α → α → Bool) (l : List α) :
    (sortedBy less l).Perm l := by
  induction l with
  | nil => exact List.Perm.refl _
  | cons x xs ih =>
    exact (insertSortedBy_perm less x (sortedBy less xs)).trans (ih.cons x)

/-- For a transitive and irreflexive comparison, the head of the sorted list
is a member below which no element of the list sorts. -/
theorem sortedBy_head_min {α : Type} (less : α → α → Bool)
    (htrans : ∀ a b c, less a b = true → less b c = true → less a c = true)
    (hirr : ∀ a, less a a = false) :
    ∀ (l : List α) (w : α), (sortedBy less l).head? = some w →
      w ∈ l ∧ ∀ c ∈ l, less c w = false := by
  intro l
  induction l with
  | nil => intro w h; simp [sortedBy] at h
  | cons x xs ih =>
    intro w h
    simp only [sortedBy] at h
    cases hs : sortedBy less xs with
    | nil =>
      have hxs : xs = [] := by
        have hp := sortedBy_perm less xs
        rw [hs] at hp
        exact hp.symm.eq_nil
      subst hxs
      rw [hs] at h
      simp only [insertSortedBy, List.head?_cons, Option.some.injEq] at h
      subst h
      refine ⟨List.mem_cons_self _ _, ?_⟩
      intro c hc
      rcases List.mem_cons.mp hc with rfl | hc2
      · exact hirr c
      · simp at hc2
    | cons y ys =>
      rw [hs] at h
      obtain ⟨hymem, hymin⟩ := ih y (by rw [hs]; rfl)
      simp only [insertSortedBy] at h
      split at h
      · rename_i hxy
        simp only [List.head?_cons, Option.some.injEq] at h
        subst h
        refine ⟨List.mem_cons_self _ _, ?_⟩
        intro c hc
        rcases List.mem_cons.mp hc with rfl | hcxs
        · exact hirr _
        · cases hclt : less c x with
          | false => rfl
          | true =>
            have hcy : less c y = true := htrans c x y hclt hxy
            have h2 := hymin c hcxs
            simp [h2] at hcy
      · rename_i hxy
        simp only [List.head?_cons, Option.some.injEq] at h
        subst h
        refine ⟨List.mem_cons_of_mem _ hymem, ?_⟩
        intro c hc
        rcases List.mem_cons.mp hc with rfl | hcxs
        · exact eq_false_of_ne_true hxy
        · exact hymin c hcxs

/-- In a list of pairwise distinct names, the name determines the element. -/
theorem name_injective_on : ∀ {l : List KopiaMaintenance},
    l.Pairwise (fun a b => a.Name ≠ b.Name) →
    ∀ {a b : KopiaMaintenance}, a ∈ l → b ∈ l → a.Name = b.Name → a = b := by
  intro l
  induction l with
  | nil => intro _ a b ha; simp at ha
  | cons x xs ih =>
    intro hd a b ha hb hn
    rcases List.mem_cons.mp ha with rfl | ha2 <;> rcases List.mem_cons.mp hb with rfl | hb2
    · rfl
    · exact absurd hn ((List.pairwise_cons.mp hd).1 b hb2)
    · exact absurd hn.symm ((List.pairwise_cons.mp hd).1 a ha2)
    · exact ih (List.pairwise_cons.mp hd).2 ha2 hb2 hn

/-- C4: among the listed maintenance policies (with pairwise distinct names,
as cluster-scoped object names are), whenever at least one selector-mode
policy matches the source, `findBestMatchingMaintenanceConfig` returns a
matching policy that beats every other matching policy either by strictly
higher priority or, on a priority tie, by lexicographically smaller name —
and the same winner is returned for every permutation of the input list. -/
theorem findBest_selects_highest_priority
    (nsGet : Str → Option (List (Str × Str)))
    (items : List KopiaMaintenance) (source : ReplicationSource)
    (hd : items.Pairwise (fun a b => a.Name ≠ b.Name))
    (hne : ∃ m ∈ items, (!m.IsDirectRepositoryMode &&
      EnhancedMaintenanceManager.maintenanceMatches nsGet m source) = true) :
    ∃ w, EnhancedMaintenanceManager.findBestMatchingMaintenanceConfig nsGet items source = some w ∧
      w ∈ items ∧
      (!w.IsDirectRepositoryMode &&
        EnhancedMaintenanceManager.maintenanceMatches nsGet w source) = true ∧
      (∀ m ∈ items, (!m.IsDirectRepositoryMode &&
          EnhancedMaintenanceManager.maintenanceMatches nsGet m source) = true → m ≠ w →
        (m.Spec.Priority < w.Spec.Priority ∨
          (m.Spec.Priority = w.Spec.Priority ∧ strLt w.Name m.Name = true))) ∧
      (∀ items2, items.Perm items2 →
        EnhancedMaintenanceManager.findBestMatchingMaintenanceConfig nsGet items2 source = some w) := by
  have htrans : ∀ a b c, EnhancedMaintenanceManager.maintenanceLess a b = true →
      EnhancedMaintenanceManager.maintenanceLess b c = true →
      EnhancedMaintenanceManager.maintenanceLess a c = true :=
    fun _ _ _ h1 h2 => maintenanceLess_trans h1 h2
  obtain ⟨m0, hm0i, hm0p⟩ := hne
  have hm0f : m0 ∈ items.filter (fun m => !m.IsDirectRepositoryMode &&
      EnhancedMaintenanceManager.maintenanceMatches nsGet m source) :=
    List.mem_filter.mpr ⟨hm0i, hm0p⟩
  obtain ⟨w, ws, hws⟩ : ∃ w ws,
      sortedBy EnhancedMaintenanceManager.maintenanceLess
        (items.filter (fun m => !m.IsDirectRepositoryMode &&
          EnhancedMaintenanceManager.maintenanceMatches nsGet m source)) = w :: ws := by
    cases hsrt : sortedBy EnhancedMaintenanceManager.maintenanceLess
        (items.filter (fun m => !m.IsDirectRepositoryMode &&
          EnhancedMaintenanceManager.maintenanceMatches nsGet m source)) with
    | nil =>
      have hp := sortedBy_perm EnhancedMaintenanceManager.maintenanceLess
        (items.filter (fun m => !m.IsDirectRepositoryMode &&
          EnhancedMaintenanceManager.maintenanceMatches nsGet m source))
      rw [hsrt] at hp
      rw [hp.symm.eq_nil] at hm0f
      simp at hm0f
    | cons a b => exact ⟨a, b, rfl⟩
  obtain ⟨hwmemf, hwmin⟩ := sortedBy_head_min EnhancedMaintenanceManager.maintenanceLess
    htrans maintenanceLess_irrefl _ w (by rw [hws]; rfl)
  have hwitems : w ∈ items := (List.mem_filter.mp hwmemf).1
  have hwpred := (List.mem_filter.mp hwmemf).2
  refine ⟨w, ?_, hwitems, hwpred, ?_, ?_⟩
  · simp only [EnhancedMaintenanceManager.findBestMatchingMaintenanceConfig]
    rw [hws]
    rfl
  · intro m hm hp hnew
    have hmf : m ∈ items.filter (fun m => !m.IsDirectRepositoryMode &&
        EnhancedMaintenanceManager.maintenanceMatches nsGet m source) :=
      List.mem_filter.mpr ⟨hm, hp⟩
    have hml := hwmin m hmf
    by_cases hpq : m.Spec.Priority = w.Spec.Priority
    · right
      refine ⟨hpq, ?_⟩
      unfold EnhancedMaintenanceManager.maintenanceLess at hml
      rw [if_pos hpq] at hml
      cases hlt : strLt w.Name m.Name with
      | true => rfl
      | false =>
        have heqn := strLt_conn _ _ hml hlt
        exact absurd (name_injective_on hd hm hwitems heqn) hnew
    · left
      unfold EnhancedMaintenanceManager.maintenanceLess at hml
      rw [if_neg hpq] at hml
      have := of_decide_eq_false hml
      omega
  · intro items2 hperm
    have hpf := hperm.filter (fun m => !m.IsDirectRepositoryMode &&
      EnhancedMaintenanceManager.maintenanceMatches nsGet m source)
    obtain ⟨w2, ws2, hws2⟩ : ∃ w2 ws2,
        sortedBy EnhancedMaintenanceManager.maintenanceLess
          (items2.filter (fun m => !m.IsDirectRepositoryMode &&
            EnhancedMaintenanceManager.maintenanceMatches nsGet m source)) = w2 :: ws2 := by
      cases hsrt : sortedBy EnhancedMaintenanceManager.maintenanceLess
          (items2.filter (fun m => !m.IsDirectRepositoryMode &&
            EnhancedMaintenanceManager.maintenanceMatches nsGet m source)) with
      | nil =>
        have hp := sortedBy_perm EnhancedMaintenanceManager.maintenanceLess
          (items2.filter (fun m => !m.IsDirectRepositoryMode &&
            EnhancedMaintenanceManager.maintenanceMatches nsGet m source))
        rw [hsrt] at hp
        have hwf2 : w ∈ items2.filter (fun m => !m.IsDirectRepositoryMode &&
            EnhancedMaintenanceManager.maintenanceMatches nsGet m source) :=
          hpf.mem_iff.mp hwmemf
        rw [hp.symm.eq_nil] at hwf2
        simp at hwf2
      | cons a b => exact ⟨a, b, rfl⟩
    obtain ⟨hw2memf, hw2min⟩ := sortedBy_head_min EnhancedMaintenanceManager.maintenanceLess
      htrans maintenanceLess_irrefl _ w2 (by rw [hws2]; rfl)
    have hw2f1 : w2 ∈ items.filter (fun m => !m.IsDirectRepositoryMode &&
        EnhancedMaintenanceManager.maintenanceMatches nsGet m source) :=
      hpf.mem_iff.mpr hw2memf
    have hwf2 : w ∈ items2.filter (fun m => !m.IsDirectRepositoryMode &&
        EnhancedMaintenanceManager.maintenanceMatches nsGet m source) :=
      hpf.mem_iff.mp hwmemf
    have e1 := hwmin w2 hw2f1
    have e2 := hw2min w hwf2
    have hcn := maintenanceLess_conn e2 e1
    have hw2items : w2 ∈ items := (List.mem_filter.mp hw2f1).1
    have hw2w : w2 = w := name_injective_on hd hw2items hwitems hcn.2.symm
    simp only [EnhancedMaintenanceManager.findBestMatchingMaintenanceConfig]
    rw [hws2, hw2w]
    rfl

/-- Witness for C4: with two equal-priority policies `alpha` and `beta` both
matching the example source, listed with `beta` first, the arbiter still
returns a winner that is one of the listed policies. -/
theorem findBest_selects_highest_priority_witness :
    ∃ w, EnhancedMaintenanceManager.findBestMatchingMaintenanceConfig (fun _ => none)
        [betaPolicy, alphaPolicy] exampleSource = some w ∧ w ∈ [betaPolicy, alphaPolicy] := by
  obtain ⟨w, h1, h2, -⟩ := findBest_selects_highest_priority (fun _ => none)
    [betaPolicy, alphaPolicy] exampleSource (by decide) (by decide)
  exact ⟨w, h1, h2⟩
